import Mathlib

/-!
Shallow embedding of the goodchat core: the capability-scoped abilities layer
(`src/lib/services/abilities/abilities.ts`, the richer variant the spec follows),
the conversation reconciler (`upsertConversation`) and the idempotent message
dispatcher (`sendMessage`).

The persistence store is modelled as an explicit `DB` state (lists of rows plus
id counters); Prisma primitives (`findMany`, `create`, `upsert`, `update`) are
modelled as pure state transformers.  JavaScript truthiness is modelled
explicitly where the source relies on it (`_.pickBy(obj, _.identity)`,
`x || default`, `!conversation.source`): a number is falsy exactly when it is
`0`, a string exactly when it is empty, `null`/`undefined` are falsy, objects
are always truthy.  Thrown errors are modelled with `Except`; a throw leaves
already-committed store writes in place, so stateful operations return the
state alongside the `Except` result.
-/

inductive ConversationType where
  | CUSTOMER
  | INTERNAL
deriving DecidableEq

inductive AuthorType where
  | STAFF
  | CUSTOMER
  | SYSTEM
deriving DecidableEq

inductive SortOrder where
  | asc
  | desc
deriving DecidableEq

structure MessageContent where
  type : String
  text : String
deriving DecidableEq

structure Conversation where
  id : Int
  sunshineConversationId : Option String
  type : ConversationType
  customerId : Option Int
  source : Option String
  metadata : List (String × String)
  createdAt : Int
  updatedAt : Int
deriving DecidableEq

structure Message where
  id : Int
  conversationId : Int
  content : MessageContent
  sunshineMessageId : Option String
  authorType : AuthorType
  authorId : Int
  metadata : List (String × String)
  createdAt : Int
deriving DecidableEq

structure StaffConversation where
  staffId : Int
  conversationId : Int
deriving DecidableEq

/-- Modelled from the spec: the staff role/type attribute used by the rule
engine (`rules.ts` is not under `src/`).  The spec describes staff with
unrestricted visibility and constrained roles such as an "agent". -/
inductive StaffRole where
  | admin
  | agent
deriving DecidableEq

structure Staff where
  id : Int
  role : StaffRole
deriving DecidableEq

/-- Model of `Unsaved<T> = Omit<T, "id" | "createdAt" | "updatedAt">` (from `db.ts`). -/
structure UnsavedConversation where
  sunshineConversationId : Option String
  type : ConversationType
  customerId : Option Int
  source : Option String
  metadata : List (String × String)
deriving DecidableEq

structure UnsavedMessage where
  conversationId : Int
  content : MessageContent
  sunshineMessageId : Option String
  authorType : AuthorType
  authorId : Int
  metadata : List (String × String)
deriving DecidableEq

/-- Thrown JavaScript error values: `throwForbidden()` from `utils/errors`
(not under `src/`; modelled from the spec as the access-denied condition),
Prisma's not-found on `update`, and arbitrary errors thrown by the external
provider client. -/
inductive JsError where
  | forbidden
  | notFound
  | provider (code : Int) (msg : String)
deriving DecidableEq

structure Config where
  smoochAppId : String
  appName : String
deriving DecidableEq

/-- The environment of a `sendMessage` call: the (possibly absent) app config
and the external provider client.  `postMessage appId sunshineConversationId
authorName content` returns the provider-assigned message identity
(`messages[0].id` in the source) or throws. -/
structure SendEnv where
  config : Option Config
  postMessage : String → String → String → MessageContent → Except JsError String

/-- The persistence store: rows plus the autoincrement counters and the clock
used for store-assigned timestamps. -/
structure DB where
  conversations : List Conversation
  messages : List Message
  staffConversations : List StaffConversation
  nextConversationId : Int := 1
  nextMessageId : Int := 1
  now : Int := 0
deriving DecidableEq

structure Pagination where
  limit : Int
  offset : Int
deriving DecidableEq

/-- JavaScript `v || dflt` on an optional number: `0` is falsy. -/
def jsOrNum (v : Option Int) (dflt : Int) : Int :=
  match v with
  | none => dflt
  | some n => if n == 0 then dflt else n

/-- lodash `_.clamp(n, lo, hi)`. -/
def lodashClamp (n lo hi : Int) : Int := max lo (min n hi)

/-- Model of `normalizePages` from `abilities.ts` (identical in both facade variants):
`limit: _.clamp(args.limit || 25, 0, 100), offset: _.clamp(args.offset || 0, 0, 100)`. -/
def normalizePages (limit offset : Option Int) : Pagination :=
  { limit := lodashClamp (jsOrNum limit 25) 0 100
    offset := lodashClamp (jsOrNum offset 0) 0 100 }

/-- JavaScript truthiness of a nullable string (`!conversation.source`):
falsy when absent or empty. -/
def jsStrFalsy : Option String → Bool
  | none => true
  | some s => s == ""

/-- The `clean = _.pickBy(obj, _.identity)` step of `abilities.ts` applied to a
numeric filter value: a key whose value is `undefined` or `0` (falsy) is
stripped from the compiled where-clause. -/
def cleanNum : Option Int → Option Int
  | none => none
  | some n => if n == 0 then none else some n

/-- The rule-engine predicate: a set of field constraints (logically ANDed)
scoping which conversations a staff member may observe.  Here the constraint
is on the conversation type, per the spec's description. -/
structure Rules where
  type : Option ConversationType := none
deriving DecidableEq

def ruleMatches (r : Rules) (c : Conversation) : Bool :=
  match r.type with
  | none => true
  | some t => c.type == t

/-- Modelled from the spec: `getConversationRules` (`rules.ts` is not under
`src/`).  Returns an empty/always-true predicate for staff with unrestricted
visibility and a narrowing predicate (restricted by conversation type) for
constrained roles. -/
def getConversationRules (staff : Staff) : Rules :=
  match staff.role with
  | StaffRole.admin => {}
  | StaffRole.agent => { type := some ConversationType.CUSTOMER }

/-- Modelled from the spec: `allowedConversationTypes` (`rules.ts` is not under
`src/`): the set of conversation types the principal is permitted to join. -/
def allowedConversationTypes (staff : Staff) : List ConversationType :=
  match staff.role with
  | StaffRole.admin => [ConversationType.CUSTOMER, ConversationType.INTERNAL]
  | StaffRole.agent => [ConversationType.CUSTOMER]

/-- Ordering used by `getConversations`: `orderBy: [ updatedAt desc, id desc ]`.
`convBefore a b` holds when `a` may appear no later than `b`. -/
def convBefore (a b : Conversation) : Prop :=
  b.updatedAt < a.updatedAt ∨ (b.updatedAt = a.updatedAt ∧ b.id ≤ a.id)

instance : DecidableRel convBefore := fun a b =>
  decidable_of_iff (b.updatedAt < a.updatedAt ∨ (b.updatedAt = a.updatedAt ∧ b.id ≤ a.id))
    Iff.rfl

instance : IsTotal Conversation convBefore :=
  ⟨fun a b => by unfold convBefore; omega⟩

instance : IsTrans Conversation convBefore :=
  ⟨fun a b c => by unfold convBefore; omega⟩

/-- Ordering used by `getMessages`: `orderBy: [ createdAt: args.order || desc ]`. -/
def msgBefore (ord : SortOrder) (a b : Message) : Prop :=
  match ord with
  | SortOrder.asc => a.createdAt ≤ b.createdAt
  | SortOrder.desc => b.createdAt ≤ a.createdAt

instance (ord : SortOrder) : DecidableRel (msgBefore ord) := fun a b => by
  cases ord with
  | asc => exact decidable_of_iff (a.createdAt ≤ b.createdAt) Iff.rfl
  | desc => exact decidable_of_iff (b.createdAt ≤ a.createdAt) Iff.rfl

instance (ord : SortOrder) : IsTotal Message (msgBefore ord) :=
  ⟨fun a b => by cases ord <;> unfold msgBefore <;> omega⟩

instance (ord : SortOrder) : IsTrans Message (msgBefore ord) :=
  ⟨fun a b c => by cases ord <;> unfold msgBefore <;> omega⟩

/-- The compiled where-clause of `getConversations`, after merging the rule
object with the picked caller filters (`{...rules, ..._.pick(args, [type, id,
customerId])}`) and applying `clean`. -/
structure ConvWhere where
  type : Option ConversationType
  id : Option Int
  customerId : Option Int

def convWhereMatches (w : ConvWhere) (c : Conversation) : Bool :=
  (match w.type with | none => true | some t => c.type == t) &&
  (match w.id with | none => true | some i => c.id == i) &&
  (match w.customerId with | none => true | some i => c.customerId == some i)

/-- The compiled where-clause of `getMessages`: the rule predicate nested under
the `conversation` relation (a JavaScript object is always truthy, so `clean`
never strips this key), plus the cleaned numeric filters. -/
structure MsgWhere where
  conversation : Rules
  id : Option Int
  conversationId : Option Int

def msgWhereMatches (conversations : List Conversation) (w : MsgWhere) (m : Message) : Bool :=
  (match conversations.find? (fun c => c.id == m.conversationId) with
   | none => false
   | some c => ruleMatches w.conversation c) &&
  (match w.id with | none => true | some i => m.id == i) &&
  (match w.conversationId with | none => true | some i => m.conversationId == i)

structure ConversationsArgs where
  limit : Option Int := none
  offset : Option Int := none
  type : Option ConversationType := none
  customerId : Option Int := none
  id : Option Int := none
deriving DecidableEq

structure MessageArgs where
  limit : Option Int := none
  offset : Option Int := none
  conversationId : Option Int := none
  id : Option Int := none
  order : Option SortOrder := none
deriving DecidableEq

/-- Model of `getConversations` of the ability facade: rule predicate merged with the
caller-supplied equality filters (a present caller key overrides a rule key of
the same name), `clean`ed, then `findMany` with skip/take and
`orderBy [updatedAt desc, id desc]`. -/
def getConversations (db : DB) (staff : Staff) (args : ConversationsArgs) : List Conversation :=
  let pages := normalizePages args.limit args.offset
  let rules := getConversationRules staff
  let w : ConvWhere :=
    { type := args.type.or rules.type
      id := cleanNum args.id
      customerId := cleanNum args.customerId }
  (((db.conversations.filter (fun c => convWhereMatches w c)).insertionSort
      convBefore).drop pages.offset.toNat).take pages.limit.toNat

/-- Model of `getConversationById`: `(await getConversations(\x7b id, offset: 0, limit: 1 \x7d))[0] || null`. -/
def getConversationById (db : DB) (staff : Staff) (id : Int) : Option Conversation :=
  (getConversations db staff { id := some id, offset := some 0, limit := some 1 }).head?

/-- Model of `getMessages` of the ability facade: transitively scoped through the owning
conversation's rule predicate, ordered by `createdAt` in the caller-supplied
direction (default `desc`). -/
def getMessages (db : DB) (staff : Staff) (args : MessageArgs) : List Message :=
  let pages := normalizePages args.limit args.offset
  let w : MsgWhere :=
    { conversation := getConversationRules staff
      id := cleanNum args.id
      conversationId := cleanNum args.conversationId }
  (((db.messages.filter (fun m => msgWhereMatches db.conversations w m)).insertionSort
      (msgBefore (args.order.getD SortOrder.desc))).drop pages.offset.toNat).take
    pages.limit.toNat

/-- Model of `getMessageById`: `(await getMessages(\x7b id, offset: 0, limit: 1 \x7d))[0] || null`. -/
def getMessageById (db : DB) (staff : Staff) (id : Int) : Option Message :=
  (getMessages db staff { id := some id, offset := some 0, limit := some 1 }).head?

/-- Model of `db.staffConversations.upsert` keyed on the compound (staffId,
conversationId) identity, with a no-op update branch. -/
def staffConversationsUpsert (db : DB) (staffId conversationId : Int) :
    StaffConversation × DB :=
  match db.staffConversations.find?
      (fun sc => sc.staffId == staffId && sc.conversationId == conversationId) with
  | some sc => (sc, db)
  | none =>
    let sc : StaffConversation := { staffId := staffId, conversationId := conversationId }
    (sc, { db with staffConversations := db.staffConversations ++ [sc] })

/-- Model of `addToConversation` from `abilities.ts`: visibility check on the acting
staff, allowed-type check on the target principal, then the idempotent join
upsert. -/
def addToConversation (db : DB) (staff : Staff) (id0 : Int) (user : Staff) :
    Except JsError StaffConversation × DB :=
  let allowedTypes := allowedConversationTypes user
  match getConversationById db staff id0 with
  | none => (Except.error JsError.forbidden, db)
  | some conversation =>
    if allowedTypes.contains conversation.type = false then
      (Except.error JsError.forbidden, db)
    else
      let r := staffConversationsUpsert db user.id id0
      (Except.ok r.1, r.2)

/-- Model of `joinConversation`: `addToConversation(id, staff)` (adding myself). -/
def joinConversation (db : DB) (staff : Staff) (id0 : Int) :
    Except JsError StaffConversation × DB :=
  addToConversation db staff id0 staff

/-- Model of `db.message.create`: a fresh row with a store-assigned id. -/
def messageCreate (db : DB) (data : UnsavedMessage) : Message × DB :=
  let m : Message :=
    { id := db.nextMessageId
      conversationId := data.conversationId
      content := data.content
      sunshineMessageId := data.sunshineMessageId
      authorType := data.authorType
      authorId := data.authorId
      metadata := data.metadata
      createdAt := db.now }
  (m, { db with messages := db.messages ++ [m], nextMessageId := db.nextMessageId + 1 })

/-- Model of `db.message.upsert(\x7b where: \x7b sunshineMessageId \x7d, update: \x7b\x7d, create \x7d)`: keyed
upsert with a no-op update branch.  A `null` unique key matches no existing row
(SQL null semantics), so it falls through to the create branch. -/
def messageUpsert (db : DB) (key : Option String) (data : UnsavedMessage) : Message × DB :=
  match key with
  | none => messageCreate db data
  | some sid =>
    match db.messages.find? (fun m => m.sunshineMessageId == some sid) with
    | some m => (m, db)
    | none => messageCreate db data

/-- Model of `sendMessage` from `abilities.ts`: access check, join (sending implies
joining), then either a direct create (conversation not externally bridged or
no config) or the provider call followed by the keyed upsert. -/
def sendMessage (env : SendEnv) (db : DB) (staff : Staff) (conversationId : Int)
    (content : MessageContent) : Except JsError Message × DB :=
  match getConversationById db staff conversationId with
  | none => (Except.error JsError.forbidden, db)
  | some conversation =>
    let unsaveMessage : UnsavedMessage :=
      { conversationId := conversationId
        content := content
        sunshineMessageId := none
        authorType := AuthorType.STAFF
        authorId := staff.id
        metadata := [] }
    match joinConversation db staff conversationId with
    | (Except.error e, db1) => (Except.error e, db1)
    | (Except.ok _, db1) =>
      match env.config with
      | none =>
        let r := messageCreate db1 unsaveMessage
        (Except.ok r.1, r.2)
      | some cfg =>
        if conversation.type != ConversationType.CUSTOMER then
          let r := messageCreate db1 unsaveMessage
          (Except.ok r.1, r.2)
        else
          match (match conversation.sunshineConversationId with
                 | none => Except.ok (none : Option String)
                 | some scid =>
                   match env.postMessage cfg.smoochAppId scid cfg.appName content with
                   | Except.error e => Except.error e
                   | Except.ok mid => Except.ok (some mid)) with
          | Except.error e => (Except.error e, db1)
          | Except.ok sunshineMessageId =>
            let r := messageUpsert db1 sunshineMessageId
              { unsaveMessage with sunshineMessageId := sunshineMessageId }
            (Except.ok r.1, r.2)

/-- Model of `sendTextMessage`: convenience wrapper building a text content payload. -/
def sendTextMessage (env : SendEnv) (db : DB) (staff : Staff) (conversationId : Int)
    (text : String) : Except JsError Message × DB :=
  sendMessage env db staff conversationId { type := "text", text := text }

/-- The update branch passed to `db.conversation.upsert` by the reconciler:
`_.omit(data, [metadata, externalId, source, customerId])`, which leaves the
candidate's `sunshineConversationId` and `type` to be applied on update.  (The
modelled `Conversation` has no separate `externalId` field.) -/
structure ConversationUpdateData where
  sunshineConversationId : Option String
  type : ConversationType
deriving DecidableEq

/-- Model of `db.conversation.upsert` keyed on `sunshineConversationId`. -/
def conversationUpsert (db : DB) (sid : String) (createData : UnsavedConversation)
    (updateData : ConversationUpdateData) : Conversation × DB :=
  match db.conversations.find? (fun c => c.sunshineConversationId == some sid) with
  | some c =>
    let c2 : Conversation :=
      { c with
        sunshineConversationId := updateData.sunshineConversationId
        type := updateData.type }
    (c2, { db with conversations := db.conversations.map (fun x => if x.id == c.id then c2 else x) })
  | none =>
    let c : Conversation :=
      { id := db.nextConversationId
        sunshineConversationId := createData.sunshineConversationId
        type := createData.type
        customerId := createData.customerId
        source := createData.source
        metadata := createData.metadata
        createdAt := db.now
        updatedAt := db.now }
    (c, { db with conversations := db.conversations ++ [c],
                  nextConversationId := db.nextConversationId + 1 })

/-- The follow-up fill-once update object built by the reconciler; a key is
present only when the corresponding condition held. -/
structure FillOnceUpdate where
  customerId : Option Int := none
  source : Option String := none
deriving DecidableEq

/-- Model of `db.conversation.update(\x7b where: \x7b id \x7d, data \x7d)`; throws not-found when no
row has that id. -/
def conversationUpdate (db : DB) (cid : Int) (upd : FillOnceUpdate) :
    Except JsError Conversation × DB :=
  match db.conversations.find? (fun c => c.id == cid) with
  | none => (Except.error JsError.notFound, db)
  | some c =>
    let c2 : Conversation :=
      { c with
        customerId := match upd.customerId with | some v => some v | none => c.customerId
        source := match upd.source with | some v => some v | none => c.source }
    (Except.ok c2,
      { db with conversations := db.conversations.map (fun x => if x.id == cid then c2 else x) })

/-- The Conversation Reconciler `upsertConversation` (from the unnamed source
file): keyed upsert, then the conditional fill-once follow-up update for
`customerId` (when the existing value is strictly `null` and the candidate's is
not) and `source` (when the existing value is falsy and the candidate supplies
a string). -/
def upsertConversation (db : DB) (sunshineConversationId : String)
    (data : UnsavedConversation) : Except JsError Conversation × DB :=
  let r := conversationUpsert db sunshineConversationId
    { data with sunshineConversationId := some sunshineConversationId }
    { sunshineConversationId := data.sunshineConversationId, type := data.type }
  let conversation := r.1
  let db1 := r.2
  let upd0 : FillOnceUpdate := {}
  let upd1 := if conversation.customerId == none && data.customerId != none then
      { upd0 with customerId := data.customerId } else upd0
  let upd2 := if jsStrFalsy conversation.source && data.source.isSome then
      { upd1 with source := data.source } else upd1
  if upd2.customerId.isSome || upd2.source.isSome then
    conversationUpdate db1 conversation.id upd2
  else
    (Except.ok conversation, db1)

/-- Store wellformedness for conversation rows: ids are store-assigned
(positive, below the autoincrement counter) and unique. -/
def convIdsOk (db : DB) : Prop :=
  (∀ c ∈ db.conversations, 0 < c.id ∧ c.id < db.nextConversationId) ∧
  (db.conversations.map (fun c => c.id)).Nodup

/-- At most one conversation row per non-null external conversation identity. -/
def uniqueConvSids (l : List Conversation) : Prop :=
  ∀ s : String, (l.filter (fun c => c.sunshineConversationId == some s)).length ≤ 1

/-- At most one message row per non-null provider message identity. -/
def uniqueSids (l : List Message) : Prop :=
  ∀ s : String, (l.filter (fun m => m.sunshineMessageId == some s)).length ≤ 1

/-- Number of StaffConversation join rows for a given (staff, conversation) pair. -/
def scCount (l : List StaffConversation) (staffId conversationId : Int) : Nat :=
  (l.filter (fun sc => sc.staffId == staffId && sc.conversationId == conversationId)).length

/-! Sample store states and principals used by witnesses and counterexamples. -/

def staffAdmin : Staff := { id := 10, role := StaffRole.admin }

def staffAgent : Staff := { id := 11, role := StaffRole.agent }

def convCust : Conversation :=
  { id := 1, sunshineConversationId := some "sc-1", type := ConversationType.CUSTOMER,
    customerId := some 5, source := some "wa", metadata := [], createdAt := 0, updatedAt := 0 }

def convInternal : Conversation :=
  { id := 2, sunshineConversationId := none, type := ConversationType.INTERNAL,
    customerId := none, source := none, metadata := [], createdAt := 0, updatedAt := 0 }

def db0 : DB :=
  { conversations := [convCust, convInternal], messages := [], staffConversations := [],
    nextConversationId := 3, nextMessageId := 1, now := 7 }

def cfg0 : Config := { smoochAppId := "app", appName := "GoodChat" }

def env0 : SendEnv :=
  { config := some cfg0, postMessage := fun _ _ _ _ => Except.ok "prov-1" }

def envErr : SendEnv :=
  { config := some cfg0, postMessage := fun _ _ _ _ => Except.error (JsError.provider 500 "boom") }

def contentHello : MessageContent := { type := "text", text := "hello" }

def dataUp : UnsavedConversation :=
  { sunshineConversationId := some "sc-1", type := ConversationType.CUSTOMER,
    customerId := some 9, source := some "fb", metadata := [] }

def dataStray : UnsavedConversation :=
  { sunshineConversationId := some "other", type := ConversationType.CUSTOMER,
    customerId := none, source := none, metadata := [] }

def dbEmpty : DB := { conversations := [], messages := [], staffConversations := [] }

def dataFlip : UnsavedConversation :=
  { sunshineConversationId := some "sc-1", type := ConversationType.INTERNAL,
    customerId := none, source := none, metadata := [] }

/-! Helper lemmas. -/

theorem sorted_drop_take {α : Type} (r : α → α → Prop) [DecidableRel r] [IsTotal α r]
    [IsTrans α r] (l : List α) (n k : Nat) :
    List.Sorted r (((l.insertionSort r).drop n).take k) :=
  (List.sorted_insertionSort r l).sublist
    ((List.take_sublist k ((l.insertionSort r).drop n)).trans
      (List.drop_sublist n (l.insertionSort r)))

theorem getConversations_congr (db db1 : DB) (staff : Staff) (args : ConversationsArgs)
    (h : db1.conversations = db.conversations) :
    getConversations db1 staff args = getConversations db staff args := by
  simp only [getConversations, h]

theorem getConversationById_congr (db db1 : DB) (staff : Staff) (i : Int)
    (h : db1.conversations = db.conversations) :
    getConversationById db1 staff i = getConversationById db staff i := by
  simp only [getConversationById, getConversations_congr db db1 staff _ h]

theorem staffConversationsUpsert_preserves (db : DB) (a b : Int) :
    (staffConversationsUpsert db a b).2.messages = db.messages ∧
    (staffConversationsUpsert db a b).2.conversations = db.conversations ∧
    (staffConversationsUpsert db a b).2.nextMessageId = db.nextMessageId ∧
    (staffConversationsUpsert db a b).2.now = db.now := by
  unfold staffConversationsUpsert
  cases h : db.staffConversations.find?
      (fun sc => sc.staffId == a && sc.conversationId == b) <;> simp

theorem find_id_of_nodup (l : List Conversation) (c : Conversation)
    (hmem : c ∈ l) (hids : (l.map (fun x => x.id)).Nodup) :
    l.find? (fun x => x.id == c.id) = some c := by
  induction l with
  | nil => cases hmem
  | cons a t ih =>
    rw [List.map_cons, List.nodup_cons] at hids
    rcases List.mem_cons.mp hmem with h | h
    · subst h
      exact List.find?_cons_of_pos _ (by simp)
    · have hne : (a.id == c.id) = false := by
        rw [beq_eq_false_iff_ne]
        intro he
        exact hids.1 (he ▸ List.mem_map.mpr ⟨c, h, rfl⟩)
      simp only [List.find?, hne]
      exact ih h hids.2

/-! Claim theorems. -/

/-- C9: every `getConversations` result is ordered by most-recently-updated
first and, among rows with identical update timestamps, by identifier
descending; every `getMessages` result is ordered by creation time in the
caller-supplied direction, defaulting to descending when none is supplied. -/
theorem get_results_ordered (db : DB) (staff : Staff) (cargs : ConversationsArgs)
    (margs : MessageArgs) :
    List.Sorted convBefore (getConversations db staff cargs) ∧
    List.Sorted (msgBefore (margs.order.getD SortOrder.desc)) (getMessages db staff margs) := by
  constructor
  · unfold getConversations
    exact sorted_drop_take convBefore _ _ _
  · unfold getMessages
    exact sorted_drop_take (msgBefore (margs.order.getD SortOrder.desc)) _ _ _

/-- C10: a caller-supplied filter whose value is defined but falsy (`id = 0`,
`customerId = 0`, `conversationId = 0`) is stripped by `clean` exactly as an
undefined filter is, so the read behaves as if the filter had not been
supplied. -/
theorem falsy_filters_stripped (db : DB) (staff : Staff) (cargs : ConversationsArgs)
    (margs : MessageArgs) :
    getConversations db staff { cargs with id := some 0 }
      = getConversations db staff { cargs with id := none } ∧
    getConversations db staff { cargs with customerId := some 0 }
      = getConversations db staff { cargs with customerId := none } ∧
    getMessages db staff { margs with id := some 0 }
      = getMessages db staff { margs with id := none } ∧
    getMessages db staff { margs with conversationId := some 0 }
      = getMessages db staff { margs with conversationId := none } := by
  refine ⟨rfl, rfl, rfl, rfl⟩

/-- C5 (counterexample): a supplied `limit` of `0` lies inside `[0, 100]`, yet
the normalizer returns `25` for it rather than `0`, because `args.limit || 25`
treats the falsy value `0` like an absent limit. -/
theorem normalizePages_zero_limit_cex :
    (normalizePages (some 0) none).limit = 25 ∧
    ¬ (normalizePages (some 0) none).limit = 0 := by
  decide

/-- C5 (amended): the normalizer clamps limit and offset into `[0, 100]` with
defaults `25`/`0` when absent, and returns the given value unchanged whenever
it lies in the range — except that a supplied limit of `0`, being falsy, is
replaced by the default `25`.  No input is rejected. -/
theorem normalizePages_clamps (limit offset : Option Int) :
    0 ≤ (normalizePages limit offset).limit ∧ (normalizePages limit offset).limit ≤ 100 ∧
    0 ≤ (normalizePages limit offset).offset ∧ (normalizePages limit offset).offset ≤ 100 ∧
    (limit = none → (normalizePages limit offset).limit = 25) ∧
    (offset = none → (normalizePages limit offset).offset = 0) ∧
    (∀ a : Int, limit = some a → 0 < a → a ≤ 100 → (normalizePages limit offset).limit = a) ∧
    (limit = some 0 → (normalizePages limit offset).limit = 25) ∧
    (∀ b : Int, offset = some b → 0 ≤ b → b ≤ 100 → (normalizePages limit offset).offset = b) := by
  refine ⟨?_, ?_, ?_, ?_, ?_, ?_, ?_, ?_, ?_⟩
  · simp only [normalizePages, lodashClamp]; omega
  · simp only [normalizePages, lodashClamp]; omega
  · simp only [normalizePages, lodashClamp]; omega
  · simp only [normalizePages, lodashClamp]; omega
  · intro h; subst h
    simp only [normalizePages, jsOrNum, lodashClamp]; omega
  · intro h; subst h
    simp only [normalizePages, jsOrNum, lodashClamp]; omega
  · intro a h hpos hle; subst h
    simp only [normalizePages, jsOrNum, lodashClamp, beq_iff_eq]
    rw [if_neg (by omega)]
    omega
  · intro h; subst h
    simp only [normalizePages, jsOrNum, lodashClamp, beq_iff_eq]
    decide
  · intro b h h0 hle; subst h
    simp only [normalizePages, jsOrNum, lodashClamp, beq_iff_eq]
    by_cases hb : b = 0
    · rw [if_pos hb]; omega
    · rw [if_neg hb]; omega

/-- C5 (witness): in-range nonzero inputs pass through the normalizer
unchanged. -/
theorem normalizePages_clamps_witness :
    (normalizePages (some 7) (some 3)).limit = 7 ∧
    (normalizePages (some 7) (some 3)).offset = 3 := by
  have h := normalizePages_clamps (some 7) (some 3)
  exact ⟨h.2.2.2.2.2.2.1 7 rfl (by decide) (by decide),
         h.2.2.2.2.2.2.2.2 3 rfl (by decide) (by decide)⟩

theorem getConversations_empty_of_unmatched (db : DB) (staff : Staff)
    (args : ConversationsArgs)
    (h : ∀ x ∈ db.conversations,
      convWhereMatches
        { type := args.type.or (getConversationRules staff).type,
          id := cleanNum args.id, customerId := cleanNum args.customerId } x = false) :
    getConversations db staff args = [] := by
  simp only [getConversations]
  rw [List.filter_eq_nil_iff.mpr (by simpa using h)]
  simp [List.insertionSort]

theorem getMessages_empty_of_unmatched (db : DB) (staff : Staff) (args : MessageArgs)
    (h : ∀ m ∈ db.messages,
      msgWhereMatches db.conversations
        { conversation := getConversationRules staff, id := cleanNum args.id,
          conversationId := cleanNum args.conversationId } m = false) :
    getMessages db staff args = [] := by
  simp only [getMessages]
  rw [List.filter_eq_nil_iff.mpr (by simpa using h)]
  simp [List.insertionSort]

/-- C2: for a staff principal and a conversation outside the principal's
rule-engine scope, `getConversationById` returns null (the read paths are
total functions into plain values — they contain no throw site, so no read
raises access-denied), and `getMessages` filtered to that conversation
returns an empty sequence. -/
theorem reads_degrade_outside_scope (db : DB) (staff : Staff) (c : Conversation)
    (margs : MessageArgs)
    (hmem : c ∈ db.conversations)
    (hids : (db.conversations.map (fun x => x.id)).Nodup)
    (hpos : ∀ x ∈ db.conversations, 0 < x.id)
    (hout : ruleMatches (getConversationRules staff) c = false) :
    getConversationById db staff c.id = none ∧
    getMessages db staff { margs with conversationId := some c.id } = [] := by
  have hc0 : ¬ c.id = 0 := by have := hpos c hmem; omega
  have hclean : cleanNum (some c.id) = some c.id := by
    simp [cleanNum, hc0]
  constructor
  · unfold getConversationById
    rw [getConversations_empty_of_unmatched db staff _ ?empty]
    · rfl
    case empty =>
      intro x hx
      by_cases hxid : (x.id == c.id) = true
      · have hxc : x = c := List.inj_on_of_nodup_map hids hx hmem (by simpa using hxid)
        subst hxc
        simp only [ruleMatches] at hout
        rcases hrt : (getConversationRules staff).type with _ | t
        · rw [hrt] at hout; cases hout
        · rw [hrt] at hout
          have hout2 : (x.type == t) = false := hout
          simp [convWhereMatches, Option.or, hrt, hout2]
      · simp [convWhereMatches, hclean, hxid, Bool.and_eq_false_iff]
  · rw [getMessages_empty_of_unmatched db staff _ ?mempty]
    case mempty =>
      intro m hm
      simp only [msgWhereMatches, hclean]
      by_cases hmc : (m.conversationId == c.id) = true
      · have hmc' : m.conversationId = c.id := by simpa using hmc
        rw [hmc', find_id_of_nodup db.conversations c hmem hids]
        simp [hout]
      · simp [Bool.and_eq_false_iff, hmc]

/-- C2 (witness): an agent-scoped principal reading the internal conversation
gets null and no messages. -/
theorem reads_degrade_outside_scope_witness :
    getConversationById db0 staffAgent convInternal.id = none ∧
    getMessages db0 staffAgent { conversationId := some convInternal.id } = [] := by
  have h := reads_degrade_outside_scope db0 staffAgent convInternal {}
    (by decide) (by decide) (by decide) (by decide)
  exact ⟨h.1, h.2⟩

/-- C6: `addToConversation` fails with access-denied when the acting staff
cannot see the target conversation; independently fails with access-denied
when the conversation's type is not among the types the target principal is
permitted to join; when both checks pass it creates the StaffConversation
join row via an upsert with a no-op update branch, so repeated joins leave
exactly one StaffConversation row. -/
theorem addToConversation_checks (db : DB) (staff user : Staff) (cid : Int) :
    (getConversationById db staff cid = none →
      addToConversation db staff cid user = (Except.error JsError.forbidden, db)) ∧
    (∀ conv, getConversationById db staff cid = some conv →
      conv.type ∉ allowedConversationTypes user →
      addToConversation db staff cid user = (Except.error JsError.forbidden, db)) ∧
    (∀ conv, getConversationById db staff cid = some conv →
      conv.type ∈ allowedConversationTypes user →
      scCount db.staffConversations user.id cid ≤ 1 →
      ∃ sc db1, addToConversation db staff cid user = (Except.ok sc, db1) ∧
        db1.conversations = db.conversations ∧ db1.messages = db.messages ∧
        sc.staffId = user.id ∧ sc.conversationId = cid ∧
        scCount db1.staffConversations user.id cid = 1 ∧
        addToConversation db1 staff cid user = (Except.ok sc, db1)) := by
  refine ⟨?_, ?_, ?_⟩
  · intro h
    simp [addToConversation, h]
  · intro conv hconv hnotin
    have hcont : (allowedConversationTypes user).contains conv.type = false := by
      cases hc : (allowedConversationTypes user).contains conv.type
      · rfl
      · exact absurd (List.mem_of_elem_eq_true hc) hnotin
    simp [addToConversation, hconv, hcont, hnotin]
  · intro conv hconv hin hcount
    have hcont : (allowedConversationTypes user).contains conv.type = true :=
      List.elem_eq_true_of_mem hin
    cases hf : db.staffConversations.find?
        (fun sc => sc.staffId == user.id && sc.conversationId == cid) with
    | some sc0 =>
      have hp := List.find?_some hf
      have hs1 : sc0.staffId = user.id := by
        have := (Bool.and_eq_true _ _).mp hp
        simpa using this.1
      have hs2 : sc0.conversationId = cid := by
        have := (Bool.and_eq_true _ _).mp hp
        simpa using this.2
      have hmemf : sc0 ∈ db.staffConversations.filter
          (fun sc => sc.staffId == user.id && sc.conversationId == cid) :=
        List.mem_filter.mpr ⟨List.mem_of_find?_eq_some hf, hp⟩
      have hlen : 0 < scCount db.staffConversations user.id cid := by
        unfold scCount
        exact List.length_pos.mpr (fun hnil => by simp [hnil] at hmemf)
      refine ⟨sc0, db, ?_, rfl, rfl, hs1, hs2, ?_, ?_⟩
      · simp [addToConversation, hconv, hcont, staffConversationsUpsert, hf, hin]
      · omega
      · simp [addToConversation, hconv, hcont, staffConversationsUpsert, hf, hin]
    | none =>
      have hnil : db.staffConversations.filter
          (fun sc => sc.staffId == user.id && sc.conversationId == cid) = [] :=
        List.filter_eq_nil_iff.mpr (by simpa using List.find?_eq_none.mp hf)
      refine ⟨{ staffId := user.id, conversationId := cid },
        { db with staffConversations := db.staffConversations ++
            [{ staffId := user.id, conversationId := cid }] }, ?_, rfl, rfl, rfl, rfl, ?_, ?_⟩
      · simp [addToConversation, hconv, hcont, staffConversationsUpsert, hf, hin]
      · unfold scCount
        simp [List.filter_append, hnil]
      · have hconv1 : getConversationById
            { db with staffConversations := db.staffConversations ++
                [{ staffId := user.id, conversationId := cid }] } staff cid = some conv :=
          (getConversationById_congr db _ staff cid rfl).trans hconv
        simp [addToConversation, hconv1, hcont, staffConversationsUpsert,
          List.find?_append, hf, hin]

/-- C6 (witness): adding the agent to the customer conversation through the
admin's facade succeeds, leaves one join row, and repeating it is a no-op. -/
theorem addToConversation_checks_witness :
    ∃ sc db1, addToConversation db0 staffAdmin 1 staffAgent = (Except.ok sc, db1) ∧
      db1.conversations = db0.conversations ∧ db1.messages = db0.messages ∧
      sc.staffId = staffAgent.id ∧ sc.conversationId = 1 ∧
      scCount db1.staffConversations staffAgent.id 1 = 1 ∧
      addToConversation db1 staffAdmin 1 staffAgent = (Except.ok sc, db1) :=
  (addToConversation_checks db0 staffAdmin staffAgent 1).2.2 convCust
    (by decide) (by decide) (by decide)

theorem addToConversation_ok (db : DB) (staff user : Staff) (cid : Int) (conv : Conversation)
    (hconv : getConversationById db staff cid = some conv)
    (hin : conv.type ∈ allowedConversationTypes user) :
    ∃ sc db1, addToConversation db staff cid user = (Except.ok sc, db1) ∧
      db1.conversations = db.conversations ∧ db1.messages = db.messages ∧
      db1.nextMessageId = db.nextMessageId ∧ db1.now = db.now ∧
      ({ staffId := user.id, conversationId := cid } : StaffConversation) ∈
        db1.staffConversations := by
  have hcont : (allowedConversationTypes user).contains conv.type = true :=
    List.elem_eq_true_of_mem hin
  cases hf : db.staffConversations.find?
      (fun sc => sc.staffId == user.id && sc.conversationId == cid) with
  | some sc0 =>
    have hp := List.find?_some hf
    have hs1 : sc0.staffId = user.id := by
      have := (Bool.and_eq_true _ _).mp hp; simpa using this.1
    have hs2 : sc0.conversationId = cid := by
      have := (Bool.and_eq_true _ _).mp hp; simpa using this.2
    have hmem : sc0 ∈ db.staffConversations := List.mem_of_find?_eq_some hf
    have hsc : sc0 = { staffId := user.id, conversationId := cid } := by
      cases sc0; simp_all
    refine ⟨sc0, db, ?_, rfl, rfl, rfl, rfl, ?_⟩
    · simp [addToConversation, hconv, hcont, staffConversationsUpsert, hf, hin]
    · rw [← hsc]; exact hmem
  | none =>
    refine ⟨{ staffId := user.id, conversationId := cid },
      { db with staffConversations := db.staffConversations ++
          [{ staffId := user.id, conversationId := cid }] }, ?_, rfl, rfl, rfl, rfl, ?_⟩
    · simp [addToConversation, hconv, hcont, staffConversationsUpsert, hf, hin]
    · simp

/-- C7: on a visible conversation, `sendMessage` joins the sending staff to
the conversation (the same join logic as `joinConversation`) before the
message is persisted, and when the conversation is not of the
externally-bridged type or no bridge is configured, the message is persisted
directly as a fresh row with a null provider-message-identity; the result does
not depend on the external provider at all. -/
theorem sendMessage_unbridged (env : SendEnv) (db : DB) (staff : Staff) (cid : Int)
    (content : MessageContent) (conv : Conversation)
    (hvis : getConversationById db staff cid = some conv)
    (hallow : conv.type ∈ allowedConversationTypes staff)
    (hnb : conv.type ≠ ConversationType.CUSTOMER ∨ env.config = none) :
    ∃ m db1, sendMessage env db staff cid content = (Except.ok m, db1) ∧
      m.sunshineMessageId = none ∧ m.conversationId = cid ∧ m.content = content ∧
      m.authorType = AuthorType.STAFF ∧ m.authorId = staff.id ∧
      db1.messages = db.messages ++ [m] ∧
      ({ staffId := staff.id, conversationId := cid } : StaffConversation) ∈
        db1.staffConversations ∧
      (∀ pm2, sendMessage { env with postMessage := pm2 } db staff cid content
        = sendMessage env db staff cid content) := by
  obtain ⟨sc, dbJ, hj, hjc, hjm, hjn, hjnow, hjmem⟩ :=
    addToConversation_ok db staff staff cid conv hvis hallow
  have key : ∀ e : SendEnv, e.config = env.config →
      sendMessage e db staff cid content =
        (Except.ok (messageCreate dbJ
            { conversationId := cid, content := content, sunshineMessageId := none,
              authorType := AuthorType.STAFF, authorId := staff.id, metadata := [] }).1,
          (messageCreate dbJ
            { conversationId := cid, content := content, sunshineMessageId := none,
              authorType := AuthorType.STAFF, authorId := staff.id, metadata := [] }).2) := by
    intro e he
    simp only [sendMessage, hvis]
    rw [(show joinConversation db staff cid = addToConversation db staff cid staff from rfl),
      hj]
    rcases hnb with hc | hc
    · rw [he]
      cases henv : env.config with
      | none => rfl
      | some cfg => simp [bne_iff_ne, hc]
    · rw [he, hc]
  refine ⟨_, _, key env rfl, rfl, rfl, rfl, rfl, rfl, ?_, ?_, ?_⟩
  · simp [messageCreate, hjm]
  · simp [messageCreate, hjmem]
  · intro pm2
    exact (key { env with postMessage := pm2 } rfl).trans (key env rfl).symm

/-- C8: on an externally-bridged conversation, when the external provider call
throws, the error propagates unchanged to the caller of `sendMessage` and no
local Message row is created by that call. -/
theorem sendMessage_provider_error (env : SendEnv) (db : DB) (staff : Staff) (cid : Int)
    (content : MessageContent) (conv : Conversation) (cfg : Config) (scid : String)
    (e : JsError)
    (hvis : getConversationById db staff cid = some conv)
    (hallow : conv.type ∈ allowedConversationTypes staff)
    (htype : conv.type = ConversationType.CUSTOMER)
    (hcfg : env.config = some cfg)
    (hscid : conv.sunshineConversationId = some scid)
    (herr : env.postMessage cfg.smoochAppId scid cfg.appName content = Except.error e) :
    ∃ db1, sendMessage env db staff cid content = (Except.error e, db1) ∧
      db1.messages = db.messages ∧ db1.conversations = db.conversations := by
  obtain ⟨sc, dbJ, hj, hjc, hjm, hjn, hjnow, hjmem⟩ :=
    addToConversation_ok db staff staff cid conv hvis hallow
  refine ⟨dbJ, ?_, hjm, hjc⟩
  simp only [sendMessage, hvis]
  rw [(show joinConversation db staff cid = addToConversation db staff cid staff from rfl),
    hj, hcfg]
  simp [htype, hscid, herr]

/-- C7 (witness): sending to the internal conversation (not externally
bridged) creates a fresh local row with null provider identity, independent of
the provider. -/
theorem sendMessage_unbridged_witness :
    ∃ m db1, sendMessage env0 db0 staffAdmin 2 contentHello = (Except.ok m, db1) ∧
      m.sunshineMessageId = none ∧ m.conversationId = 2 ∧ m.content = contentHello ∧
      m.authorType = AuthorType.STAFF ∧ m.authorId = staffAdmin.id ∧
      db1.messages = db0.messages ++ [m] ∧
      ({ staffId := staffAdmin.id, conversationId := 2 } : StaffConversation) ∈
        db1.staffConversations ∧
      (∀ pm2, sendMessage { env0 with postMessage := pm2 } db0 staffAdmin 2 contentHello
        = sendMessage env0 db0 staffAdmin 2 contentHello) :=
  sendMessage_unbridged env0 db0 staffAdmin 2 contentHello convInternal
    (by decide) (by decide) (Or.inl (by decide))

/-- C8 (witness): a provider failure on the bridged customer conversation
propagates unchanged and leaves the message table untouched. -/
theorem sendMessage_provider_error_witness :
    ∃ db1, sendMessage envErr db0 staffAgent 1 contentHello
        = (Except.error (JsError.provider 500 "boom"), db1) ∧
      db1.messages = db0.messages ∧ db1.conversations = db0.conversations :=
  sendMessage_provider_error envErr db0 staffAgent 1 contentHello convCust cfg0 "sc-1"
    (JsError.provider 500 "boom") (by decide) (by decide) (by decide) rfl (by decide) rfl

/-- C1: when `sendMessage` reaches the persistence step with a
provider-assigned message identity, it persists via an upsert keyed on that
identity whose update branch is a no-op: if a row with that identity already
exists it is returned unmodified and the message table is unchanged;
otherwise a fresh row is created from the locally-known fields plus the
resolved identity.  Consequently the invariant "at most one Message row per
non-null provider message identity" is preserved. -/
theorem sendMessage_upsert_race (env : SendEnv) (db : DB) (staff : Staff) (cid : Int)
    (content : MessageContent) (conv : Conversation) (cfg : Config) (scid mid : String)
    (hvis : getConversationById db staff cid = some conv)
    (hallow : conv.type ∈ allowedConversationTypes staff)
    (htype : conv.type = ConversationType.CUSTOMER)
    (hcfg : env.config = some cfg)
    (hscid : conv.sunshineConversationId = some scid)
    (hpost : env.postMessage cfg.smoochAppId scid cfg.appName content = Except.ok mid) :
    ∃ m db1, sendMessage env db staff cid content = (Except.ok m, db1) ∧
      db1.conversations = db.conversations ∧
      (∀ m0, db.messages.find? (fun x => x.sunshineMessageId == some mid) = some m0 →
        m = m0 ∧ db1.messages = db.messages) ∧
      (db.messages.find? (fun x => x.sunshineMessageId == some mid) = none →
        db1.messages = db.messages ++ [m] ∧ m.sunshineMessageId = some mid ∧
        m.conversationId = cid ∧ m.content = content ∧
        m.authorType = AuthorType.STAFF ∧ m.authorId = staff.id) ∧
      (uniqueSids db.messages → uniqueSids db1.messages) := by
  obtain ⟨sc, dbJ, hj, hjc, hjm, hjn, hjnow, hjmem⟩ :=
    addToConversation_ok db staff staff cid conv hvis hallow
  have hred : sendMessage env db staff cid content =
      (Except.ok (messageUpsert dbJ (some mid)
          { conversationId := cid, content := content, sunshineMessageId := some mid,
            authorType := AuthorType.STAFF, authorId := staff.id, metadata := [] }).1,
        (messageUpsert dbJ (some mid)
          { conversationId := cid, content := content, sunshineMessageId := some mid,
            authorType := AuthorType.STAFF, authorId := staff.id, metadata := [] }).2) := by
    simp only [sendMessage, hvis]
    rw [(show joinConversation db staff cid = addToConversation db staff cid staff from rfl),
      hj, hcfg]
    simp [htype, hscid, hpost]
  cases hf : db.messages.find? (fun x => x.sunshineMessageId == some mid) with
  | some m0 =>
    have hfJ : dbJ.messages.find? (fun x => x.sunshineMessageId == some mid) = some m0 := by
      rw [hjm]; exact hf
    refine ⟨m0, dbJ, ?_, hjc, ?_, ?_, ?_⟩
    · rw [hred]
      simp [messageUpsert, hfJ]
    · intro m1 h1
      injection h1 with h2
      exact ⟨h2, hjm⟩
    · intro h1
      cases h1
    · intro hu
      rw [hjm]
      exact hu
  | none =>
    have hfJ : dbJ.messages.find? (fun x => x.sunshineMessageId == some mid) = none := by
      rw [hjm]; exact hf
    refine ⟨(messageCreate dbJ
        { conversationId := cid, content := content, sunshineMessageId := some mid,
          authorType := AuthorType.STAFF, authorId := staff.id, metadata := [] }).1,
      (messageCreate dbJ
        { conversationId := cid, content := content, sunshineMessageId := some mid,
          authorType := AuthorType.STAFF, authorId := staff.id, metadata := [] }).2,
      ?_, ?_, ?_, ?_, ?_⟩
    · rw [hred]
      simp [messageUpsert, hfJ]
    · simp [messageCreate, hjc]
    · intro m1 h1
      cases h1
    · intro h1
      refine ⟨by simp [messageCreate, hjm], rfl, rfl, rfl, rfl, rfl⟩
    · intro hu
      intro s
      have hnil : db.messages.filter (fun x => x.sunshineMessageId == some mid) = [] :=
        List.filter_eq_nil_iff.mpr (by simpa using List.find?_eq_none.mp hf)
      by_cases hs : s = mid
      · subst hs
        simp only [messageCreate, hjm, List.filter_append]
        rw [hnil]
        simp
      · have hne : (some mid == some s) = false := by
          simp [beq_iff_eq]
          exact fun h => hs h.symm
        simp only [messageCreate, hjm, List.filter_append]
        have := hu s
        simp only [List.filter, hne]
        simp [this]

/-- C1 (witness): dispatching to the bridged customer conversation persists
exactly the row keyed by the provider identity. -/
theorem sendMessage_upsert_race_witness :
    ∃ m db1, sendMessage env0 db0 staffAgent 1 contentHello = (Except.ok m, db1) ∧
      db1.conversations = db0.conversations ∧
      (∀ m0, db0.messages.find? (fun x => x.sunshineMessageId == some "prov-1") = some m0 →
        m = m0 ∧ db1.messages = db0.messages) ∧
      (db0.messages.find? (fun x => x.sunshineMessageId == some "prov-1") = none →
        db1.messages = db0.messages ++ [m] ∧ m.sunshineMessageId = some "prov-1" ∧
        m.conversationId = 1 ∧ m.content = contentHello ∧
        m.authorType = AuthorType.STAFF ∧ m.authorId = staffAgent.id) ∧
      (uniqueSids db0.messages → uniqueSids db1.messages) :=
  sendMessage_upsert_race env0 db0 staffAgent 1 contentHello convCust cfg0 "sc-1" "prov-1"
    (by decide) (by decide) (by decide) rfl (by decide) rfl

theorem conversation_eq_of_fields (a b : Conversation)
    (h1 : a.id = b.id) (h2 : a.sunshineConversationId = b.sunshineConversationId)
    (h3 : a.type = b.type) (h4 : a.customerId = b.customerId) (h5 : a.source = b.source)
    (h6 : a.metadata = b.metadata) (h7 : a.createdAt = b.createdAt)
    (h8 : a.updatedAt = b.updatedAt) : a = b := by
  cases a; cases b; simp_all

theorem map_replace_self (l : List Conversation) (k : Int) (c : Conversation)
    (h : ∀ x ∈ l, x.id = k → x = c) :
    l.map (fun x => if x.id == k then c else x) = l := by
  induction l with
  | nil => rfl
  | cons a t ih =>
    rw [List.map_cons, ih (fun x hx => h x (List.mem_cons_of_mem a hx))]
    by_cases ha : (a.id == k) = true
    · rw [if_pos ha, ← h a (List.mem_cons_self a t) (by simpa using ha)]
    · rw [if_neg ha]

theorem map_replace_twice (l : List Conversation) (k : Int) (c2 c1 : Conversation)
    (h2 : c2.id = k) :
    ((l.map (fun x => if x.id == k then c2 else x)).map
        (fun x => if x.id == k then c1 else x))
      = l.map (fun x => if x.id == k then c1 else x) := by
  rw [List.map_map]
  apply List.map_congr_left
  intro a _
  by_cases ha : (a.id == k) = true
  · simp [Function.comp, ha, h2]
  · simp [Function.comp, ha]

theorem find_replace_of_mem (l : List Conversation) (k : Int) (c2 : Conversation)
    (hk : c2.id = k) (hex : ∃ x ∈ l, x.id = k) :
    (l.map (fun x => if x.id == k then c2 else x)).find? (fun x => x.id == k) = some c2 := by
  induction l with
  | nil =>
    rcases hex with ⟨x, hx, _⟩
    cases hx
  | cons a t ih =>
    by_cases ha : (a.id == k) = true
    · simp only [List.map_cons, if_pos ha]
      exact List.find?_cons_of_pos _ (by simpa using hk)
    · simp only [List.map_cons, if_neg ha]
      have ha' : (a.id == k) = false := by
        revert ha; cases (a.id == k) <;> simp
      simp only [List.find?, ha']
      apply ih
      rcases hex with ⟨x, hx, hxk⟩
      rcases List.mem_cons.mp hx with h | h
      · subst h
        exact absurd (by simpa using hxk) (by simpa using ha)
      · exact ⟨x, h, hxk⟩

theorem find?_replace_of_find? (l : List Conversation) (p : Conversation → Bool)
    (c0 c1 : Conversation) (hfind : l.find? p = some c0) (hid : c1.id = c0.id)
    (hp : p c1 = true) (hids : (l.map (fun x => x.id)).Nodup) :
    (l.map (fun x => if x.id == c0.id then c1 else x)).find? p = some c1 := by
  induction l with
  | nil => cases hfind
  | cons a t ih =>
    rw [List.map_cons, List.nodup_cons] at hids
    by_cases hpa : p a = true
    · rw [List.find?_cons_of_pos _ hpa] at hfind
      injection hfind with h
      subst h
      simp only [List.map_cons, if_pos (by simp : (a.id == a.id) = true)]
      exact List.find?_cons_of_pos _ hp
    · have hpa' : p a = false := by
        revert hpa; cases (p a) <;> simp
      simp only [List.find?, hpa'] at hfind
      have hc0t : c0 ∈ t := List.mem_of_find?_eq_some hfind
      have hane : (a.id == c0.id) = false := by
        rw [beq_eq_false_iff_ne]
        intro he
        exact hids.1 (he ▸ List.mem_map.mpr ⟨c0, hc0t, rfl⟩)
      simp only [List.map_cons, if_neg (by simp [hane] : ¬ (a.id == c0.id) = true)]
      simp only [List.find?, hpa']
      exact ih hfind hids.2

theorem filter_replace_singleton (l : List Conversation) (p : Conversation → Bool)
    (c0 c1 : Conversation) (hfind : l.find? p = some c0) (hp : p c1 = true)
    (hids : (l.map (fun x => x.id)).Nodup)
    (huniq : (l.filter p).length ≤ 1) :
    (l.map (fun x => if x.id == c0.id then c1 else x)).filter p = [c1] := by
  induction l with
  | nil => cases hfind
  | cons a t ih =>
    rw [List.map_cons, List.nodup_cons] at hids
    by_cases hpa : p a = true
    · rw [List.find?_cons_of_pos _ hpa] at hfind
      injection hfind with h
      subst h
      have htail : t.filter p = [] := by
        have hle : (a :: t.filter p).length ≤ 1 := by
          simpa [List.filter, hpa] using huniq
        simp only [List.length_cons] at hle
        exact List.length_eq_zero.mp (by omega)
      have htailfail : ∀ x ∈ t, ¬ p x = true := by
        intro x hx
        have := List.filter_eq_nil_iff.mp htail x hx
        simpa using this
      simp only [List.map_cons, if_pos (by simp : (a.id == a.id) = true)]
      simp only [List.filter, hp]
      congr 1
      apply List.filter_eq_nil_iff.mpr
      intro y hy
      rcases List.mem_map.mp hy with ⟨x, hx, hxy⟩
      by_cases hxa : (x.id == a.id) = true
      · have hxa' : x.id = a.id := by simpa using hxa
        have hmm : x.id ∈ t.map (fun y => y.id) := List.mem_map.mpr ⟨x, hx, rfl⟩
        exact (hids.1 (hxa' ▸ hmm)).elim
      · rw [if_neg hxa] at hxy
        subst hxy
        exact htailfail x hx
    · have hpa' : p a = false := by
        revert hpa; cases (p a) <;> simp
      simp only [List.find?, hpa'] at hfind
      have hc0t : c0 ∈ t := List.mem_of_find?_eq_some hfind
      have hane : (a.id == c0.id) = false := by
        rw [beq_eq_false_iff_ne]
        intro he
        exact hids.1 (he ▸ List.mem_map.mpr ⟨c0, hc0t, rfl⟩)
      simp only [List.map_cons, if_neg (by simp [hane] : ¬ (a.id == c0.id) = true)]
      simp only [List.filter, hpa']
      exact ih hfind hids.2 (by simpa [List.filter, hpa'] using huniq)

theorem conversationUpdate_on_replace (l : List Conversation) (k : Int) (c2 : Conversation)
    (upd : FillOnceUpdate) (ms : List Message) (scs : List StaffConversation)
    (nc nm nw : Int) (hk : c2.id = k) (hex : ∃ x ∈ l, x.id = k) :
    conversationUpdate
      { conversations := l.map (fun x => if x.id == k then c2 else x), messages := ms,
        staffConversations := scs, nextConversationId := nc, nextMessageId := nm, now := nw }
      k upd
    = (Except.ok
        { c2 with
          customerId := match upd.customerId with | some v => some v | none => c2.customerId
          source := match upd.source with | some v => some v | none => c2.source },
       { conversations := l.map (fun x => if x.id == k then
            { c2 with
              customerId := match upd.customerId with | some v => some v | none => c2.customerId
              source := match upd.source with | some v => some v | none => c2.source }
           else x), messages := ms, staffConversations := scs, nextConversationId := nc,
         nextMessageId := nm, now := nw }) := by
  simp only [conversationUpdate]
  rw [find_replace_of_mem l k c2 hk hex]
  simp only [Prod.mk.injEq]
  refine ⟨trivial, ?_⟩
  simp only [DB.mk.injEq, and_true, true_and]
  exact map_replace_twice l k c2 _ hk



theorem upsertConversation_existing (db : DB) (sid : String) (data : UnsavedConversation)
    (c0 : Conversation)
    (hfind : db.conversations.find? (fun c => c.sunshineConversationId == some sid) = some c0) :
    ∃ c1 db1, upsertConversation db sid data = (Except.ok c1, db1) ∧
      c1.id = c0.id ∧ c1.metadata = c0.metadata ∧ c1.createdAt = c0.createdAt ∧
      c1.updatedAt = c0.updatedAt ∧
      c1.sunshineConversationId = data.sunshineConversationId ∧
      c1.type = data.type ∧
      c1.customerId = (if (c0.customerId == none && data.customerId != none) = true
        then data.customerId else c0.customerId) ∧
      c1.source = (if (jsStrFalsy c0.source && data.source.isSome) = true
        then data.source else c0.source) ∧
      db1.conversations = db.conversations.map (fun x => if x.id == c0.id then c1 else x) ∧
      db1.messages = db.messages ∧ db1.staffConversations = db.staffConversations ∧
      db1.nextConversationId = db.nextConversationId := by
  have hmem0 : c0 ∈ db.conversations := List.mem_of_find?_eq_some hfind
  simp only [upsertConversation, conversationUpsert, hfind]
  by_cases hcu : (c0.customerId == none && data.customerId != none) = true
  · rcases hv : data.customerId with _ | v
    · rw [hv] at hcu; simp at hcu
    · rw [hv] at hcu
      by_cases hso : (jsStrFalsy c0.source && data.source.isSome) = true
      · rcases hs : data.source with _ | sv
        · rw [hs] at hso; simp at hso
        · rw [hs] at hso
          have hsoF : jsStrFalsy c0.source = true := by simpa using hso
          simp only [hcu, Option.isSome_some, Bool.and_true, hsoF, eq_self_iff_true,
            if_true, Bool.or_self]
          rw [conversationUpdate_on_replace db.conversations c0.id
            ⟨c0.id, data.sunshineConversationId, data.type, c0.customerId, c0.source,
              c0.metadata, c0.createdAt, c0.updatedAt⟩
            ⟨some v, some sv⟩ db.messages db.staffConversations db.nextConversationId
            db.nextMessageId db.now rfl ⟨c0, hmem0, rfl⟩]
          refine ⟨_, _, rfl, ?_⟩
          simp [hcu, hsoF]
      · have hso' : (jsStrFalsy c0.source && data.source.isSome) = false := by
          revert hso; cases (jsStrFalsy c0.source && data.source.isSome) <;> simp
        simp only [hcu, hso', eq_self_iff_true, if_true, Bool.false_eq_true, if_false,
          Option.isSome_some, Option.isSome_none, Bool.or_false]
        rw [conversationUpdate_on_replace db.conversations c0.id
          ⟨c0.id, data.sunshineConversationId, data.type, c0.customerId, c0.source,
            c0.metadata, c0.createdAt, c0.updatedAt⟩
          ⟨some v, none⟩ db.messages db.staffConversations db.nextConversationId
          db.nextMessageId db.now rfl ⟨c0, hmem0, rfl⟩]
        refine ⟨_, _, rfl, ?_⟩
        simp [hcu, hso']
  · have hcu' : (c0.customerId == none && data.customerId != none) = false := by
      revert hcu; cases (c0.customerId == none && data.customerId != none) <;> simp
    by_cases hso : (jsStrFalsy c0.source && data.source.isSome) = true
    · rcases hs : data.source with _ | sv
      · rw [hs] at hso; simp at hso
      · rw [hs] at hso
        have hsoF : jsStrFalsy c0.source = true := by simpa using hso
        simp only [hcu', Bool.false_eq_true, if_false, Option.isSome_some, Bool.and_true,
          hsoF, eq_self_iff_true, if_true, Option.isSome_none, Bool.false_or]
        rw [conversationUpdate_on_replace db.conversations c0.id
          ⟨c0.id, data.sunshineConversationId, data.type, c0.customerId, c0.source,
            c0.metadata, c0.createdAt, c0.updatedAt⟩
          ⟨none, some sv⟩ db.messages db.staffConversations db.nextConversationId
          db.nextMessageId db.now rfl ⟨c0, hmem0, rfl⟩]
        refine ⟨_, _, rfl, ?_⟩
        simp [hcu', hsoF]
    · have hso' : (jsStrFalsy c0.source && data.source.isSome) = false := by
        revert hso; cases (jsStrFalsy c0.source && data.source.isSome) <;> simp
      simp only [hcu', hso', Bool.false_eq_true, if_false, Option.isSome_none, Bool.or_self]
      refine ⟨_, _, rfl, ?_⟩
      simp [hcu', hso']

theorem upsertConversation_missing (db : DB) (sid : String) (data : UnsavedConversation)
    (hnone : db.conversations.find? (fun c => c.sunshineConversationId == some sid) = none)
    (hfresh : ∀ c ∈ db.conversations, ¬ c.id = db.nextConversationId) :
    ∃ c1 db1, upsertConversation db sid data = (Except.ok c1, db1) ∧
      c1.id = db.nextConversationId ∧ c1.sunshineConversationId = some sid ∧
      c1.type = data.type ∧ c1.customerId = data.customerId ∧ c1.source = data.source ∧
      c1.metadata = data.metadata ∧ c1.createdAt = db.now ∧ c1.updatedAt = db.now ∧
      db1.conversations = db.conversations ++ [c1] ∧
      db1.messages = db.messages ∧ db1.staffConversations = db.staffConversations ∧
      db1.nextConversationId = db.nextConversationId + 1 := by
  simp only [upsertConversation, conversationUpsert, hnone]
  have hcu0 : (data.customerId == none && data.customerId != none) = false := by
    cases data.customerId <;> simp
  by_cases hso : (jsStrFalsy data.source && data.source.isSome) = true
  · rcases hs : data.source with _ | sv
    · rw [hs] at hso; simp at hso
    · rw [hs] at hso
      have hsv : sv = "" := by simpa [jsStrFalsy] using hso
      subst hsv
      have hfl : db.conversations.find? (fun c => c.id == db.nextConversationId) = none :=
        List.find?_eq_none.mpr (fun x hx => by simpa using hfresh x hx)
      have happ : (db.conversations ++
          [(⟨db.nextConversationId, some sid, data.type, data.customerId, some "",
            data.metadata, db.now, db.now⟩ : Conversation)]).find?
            (fun c => c.id == db.nextConversationId)
          = some (⟨db.nextConversationId, some sid, data.type, data.customerId, some "",
            data.metadata, db.now, db.now⟩ : Conversation) := by
        rw [List.find?_append, hfl]
        simp [List.find?]
      have hmap : db.conversations.map (fun x =>
          if x.id == db.nextConversationId then
            (⟨db.nextConversationId, some sid, data.type, data.customerId, some "",
              data.metadata, db.now, db.now⟩ : Conversation)
          else x) = db.conversations :=
        map_replace_self _ _ _ (fun x hx h => absurd h (hfresh x hx))
      simp only [hcu0, Bool.false_eq_true, if_false, jsStrFalsy, Option.isSome_some,
        Bool.and_true, beq_self_eq_true, eq_self_iff_true, if_true, Option.isSome_none,
        Bool.false_or, conversationUpdate, happ]
      refine ⟨_, _, rfl, ?_⟩
      rw [List.map_append, hmap]
      simp
  · have hso' : (jsStrFalsy data.source && data.source.isSome) = false := by
      revert hso; cases (jsStrFalsy data.source && data.source.isSome) <;> simp
    simp only [hcu0, hso', Bool.false_eq_true, if_false, Option.isSome_none, Bool.or_self]
    refine ⟨_, _, rfl, ?_⟩
    simp

/-- C3 (counterexample): on an update the candidate's `type` is applied to the
existing row (the upsert's update branch omits only metadata, external id,
source and customer reference), contradicting "every other candidate field is
ignored on update". -/
theorem upsertConversation_type_overwritten_cex :
    convCust ∈ db0.conversations ∧ convCust.type = ConversationType.CUSTOMER ∧
    dataFlip.type = ConversationType.INTERNAL ∧
    ((upsertConversation db0 "sc-1" dataFlip).2.conversations.filter
        (fun c => c.id == convCust.id)).map (fun c => c.type)
      = [ConversationType.INTERNAL] := by
  decide

/-- C3 (amended): on an existing-identity match, the reconciler changes the
fill-once fields (customer reference and source) only from empty to a
candidate-supplied non-empty value; the candidate's metadata is ignored on
update and the row identity is preserved; but contrary to the original claim
the candidate's `type` and external-identity field are applied to the existing
row (they are not in the update branch's omit list); no other row changes. -/
theorem upsertConversation_update_behavior (db : DB) (sid : String)
    (data : UnsavedConversation) (c0 : Conversation)
    (hfind : db.conversations.find? (fun c => c.sunshineConversationId == some sid)
      = some c0) :
    ∃ c1 db1, upsertConversation db sid data = (Except.ok c1, db1) ∧
      c1.id = c0.id ∧ c1.metadata = c0.metadata ∧
      c1.createdAt = c0.createdAt ∧ c1.updatedAt = c0.updatedAt ∧
      (¬ c0.customerId = none → c1.customerId = c0.customerId) ∧
      ((c0.customerId == none && data.customerId != none) = true →
        c1.customerId = data.customerId) ∧
      (jsStrFalsy c0.source = false → c1.source = c0.source) ∧
      ((jsStrFalsy c0.source && data.source.isSome) = true → c1.source = data.source) ∧
      (data.source.isSome = false → c1.source = c0.source) ∧
      c1.type = data.type ∧
      c1.sunshineConversationId = data.sunshineConversationId ∧
      db1.conversations = db.conversations.map (fun x => if x.id == c0.id then c1 else x) ∧
      db1.messages = db.messages := by
  obtain ⟨c1, db1, h, h1, h2, h3, h4, h5, h6, h7, h8, h9, h10, h11, h12⟩ :=
    upsertConversation_existing db sid data c0 hfind
  refine ⟨c1, db1, h, h1, h2, h3, h4, ?_, ?_, ?_, ?_, ?_, h6, h5, h9, h10⟩
  · intro hc
    have hc' : (c0.customerId == none) = false := by
      revert hc; cases hcc : c0.customerId <;> simp
    rw [h7, hc']
    simp
  · intro hc
    rw [h7, if_pos hc]
  · intro hc
    rw [h8, hc]
    simp
  · intro hc
    rw [h8, if_pos hc]
  · intro hc
    rw [h8, hc]
    simp

/-- C3 (witness): updating the existing customer conversation with a fresh
candidate leaves its already-set customer reference and source in place. -/
theorem upsertConversation_update_behavior_witness :
    ∃ c1 db1, upsertConversation db0 "sc-1" dataUp = (Except.ok c1, db1) ∧
      c1.id = convCust.id ∧ c1.metadata = convCust.metadata ∧
      c1.createdAt = convCust.createdAt ∧ c1.updatedAt = convCust.updatedAt ∧
      (¬ convCust.customerId = none → c1.customerId = convCust.customerId) ∧
      ((convCust.customerId == none && dataUp.customerId != none) = true →
        c1.customerId = dataUp.customerId) ∧
      (jsStrFalsy convCust.source = false → c1.source = convCust.source) ∧
      ((jsStrFalsy convCust.source && dataUp.source.isSome) = true →
        c1.source = dataUp.source) ∧
      (dataUp.source.isSome = false → c1.source = convCust.source) ∧
      c1.type = dataUp.type ∧
      c1.sunshineConversationId = dataUp.sunshineConversationId ∧
      db1.conversations = db0.conversations.map
        (fun x => if x.id == convCust.id then c1 else x) ∧
      db1.messages = db0.messages :=
  upsertConversation_update_behavior db0 "sc-1" dataUp convCust (by decide)

/-- C4 (counterexample): with a candidate record whose own external-identity
field differs from the keyed identity, the second call's update branch
overwrites the row's identity — afterwards no Conversation row with the keyed
identity remains, so the pair of calls does not leave exactly one row for that
identity. -/
theorem upsertConversation_twice_cex :
    ((upsertConversation dbEmpty "s" dataStray).2.conversations.filter
        (fun c => c.sunshineConversationId == some "s")).length = 1 ∧
    ((upsertConversation (upsertConversation dbEmpty "s" dataStray).2 "s"
        dataStray).2.conversations.filter
        (fun c => c.sunshineConversationId == some "s")).length = 0 := by
  decide

/-- C4 (amended): provided the candidate record's own external-identity field
matches the keyed identity (as every sane caller passes), calling the
reconciler twice in sequence with the same identity and candidate yields
exactly one Conversation row for that identity, and the second call changes
nothing: it returns the same row and leaves the table unchanged — in
particular the already-set fill-once fields are never overwritten. -/
theorem upsertConversation_idempotent (db : DB) (sid : String) (data : UnsavedConversation)
    (hsid : data.sunshineConversationId = some sid)
    (hpos : ∀ c ∈ db.conversations, c.id < db.nextConversationId)
    (hids : (db.conversations.map (fun x => x.id)).Nodup)
    (huniq : (db.conversations.filter
      (fun c => c.sunshineConversationId == some sid)).length ≤ 1) :
    ∃ c1 db1 c2 db2,
      upsertConversation db sid data = (Except.ok c1, db1) ∧
      upsertConversation db1 sid data = (Except.ok c2, db2) ∧
      c2 = c1 ∧ db2.conversations = db1.conversations ∧
      (db2.conversations.filter
        (fun c => c.sunshineConversationId == some sid)).length = 1 := by
  have hfresh : ∀ c ∈ db.conversations, ¬ c.id = db.nextConversationId :=
    fun c hc => by have := hpos c hc; omega
  cases hf : db.conversations.find? (fun c => c.sunshineConversationId == some sid) with
  | none =>
    obtain ⟨c1, db1, h, hcid, hssid, htype, hcust, hsrc, hmeta, hca, hua, hconvs, hmsgs,
      hscs, hnext⟩ := upsertConversation_missing db sid data hf hfresh
    have hffail : ∀ x ∈ db.conversations, ¬ (x.sunshineConversationId == some sid) = true := by
      simpa using List.find?_eq_none.mp hf
    have hp1 : (c1.sunshineConversationId == some sid) = true := by simp [hssid]
    have hfind1 : db1.conversations.find? (fun c => c.sunshineConversationId == some sid)
        = some c1 := by
      rw [hconvs, List.find?_append, List.find?_eq_none.mpr hffail]
      simp [List.find?, hp1]
    obtain ⟨c2, db2, g, gid, gmeta, gca, gua, gssid, gtype, gcust, gsrc, gconvs, gmsgs,
      gscs, gnext⟩ := upsertConversation_existing db1 sid data c1 hfind1
    have hc2c1 : c2 = c1 := by
      apply conversation_eq_of_fields c2 c1 gid
      · rw [gssid, hsid, hssid]
      · rw [gtype, htype]
      · rw [gcust, hcust]
        cases data.customerId <;> simp
      · rw [gsrc, hsrc]
        by_cases hj : (jsStrFalsy data.source && data.source.isSome) = true <;> simp [hj]
      · exact gmeta
      · exact gca
      · exact gua
    have hself : ∀ x ∈ db1.conversations, x.id = c1.id → x = c1 := by
      intro x hx hxid
      rw [hconvs] at hx
      rcases List.mem_append.mp hx with hmem | hmem
      · exact absurd (hcid ▸ hxid) (hfresh x hmem)
      · simpa using hmem
    have hdb21 : db2.conversations = db1.conversations := by
      rw [gconvs, hc2c1, map_replace_self db1.conversations c1.id c1 hself]
    have hcount : (db1.conversations.filter
        (fun c => c.sunshineConversationId == some sid)).length = 1 := by
      rw [hconvs, List.filter_append, List.filter_eq_nil_iff.mpr hffail]
      simp [List.filter, hp1]
    exact ⟨c1, db1, c2, db2, h, g, hc2c1, hdb21, by rw [hdb21]; exact hcount⟩
  | some c0 =>
    obtain ⟨c1, db1, h, hcid, hmeta, hca, hua, hssid, htype, hcust, hsrc, hconvs, hmsgs,
      hscs, hnext⟩ := upsertConversation_existing db sid data c0 hf
    have hp1 : (c1.sunshineConversationId == some sid) = true := by simp [hssid, hsid]
    have hfind1 : db1.conversations.find? (fun c => c.sunshineConversationId == some sid)
        = some c1 := by
      rw [hconvs]
      exact find?_replace_of_find? db.conversations _ c0 c1 hf hcid hp1 hids
    obtain ⟨c2, db2, g, gid, gmeta, gca, gua, gssid, gtype, gcust, gsrc, gconvs, gmsgs,
      gscs, gnext⟩ := upsertConversation_existing db1 sid data c1 hfind1
    have hc2c1 : c2 = c1 := by
      apply conversation_eq_of_fields c2 c1 gid
      · rw [gssid, hssid]
      · rw [gtype, htype]
      · rw [gcust, hcust]
        rcases data.customerId with _ | v
        · simp
        · rcases c0.customerId with _ | w <;> simp
      · rw [gsrc, hsrc]
        rcases data.source with _ | sv
        · simp
        · by_cases hj : jsStrFalsy c0.source = true
          · simp [hj]
          · have hj' : jsStrFalsy c0.source = false := by
              revert hj; cases (jsStrFalsy c0.source) <;> simp
            simp [hj']
      · exact gmeta
      · exact gca
      · exact gua
    have hself : ∀ x ∈ db1.conversations, x.id = c1.id → x = c1 := by
      intro x hx hxid
      rw [hconvs] at hx
      rcases List.mem_map.mp hx with ⟨y, hy, hyx⟩
      by_cases hyc : (y.id == c0.id) = true
      · rw [if_pos hyc] at hyx
        exact hyx.symm
      · rw [if_neg hyc] at hyx
        rw [← hyx] at hxid
        exact absurd (by simp [hxid, hcid] : (y.id == c0.id) = true) hyc
    have hdb21 : db2.conversations = db1.conversations := by
      rw [gconvs, hc2c1, map_replace_self db1.conversations c1.id c1 hself]
    have hcount : (db1.conversations.filter
        (fun c => c.sunshineConversationId == some sid)).length = 1 := by
      rw [hconvs, filter_replace_singleton db.conversations _ c0 c1 hf hp1 hids huniq]
      rfl
    exact ⟨c1, db1, c2, db2, h, g, hc2c1, hdb21, by rw [hdb21]; exact hcount⟩

/-- C4 (witness): two identical reconciliations of the existing customer
conversation leave one row with that identity and identical state. -/
theorem upsertConversation_idempotent_witness :
    ∃ c1 db1 c2 db2,
      upsertConversation db0 "sc-1" dataUp = (Except.ok c1, db1) ∧
      upsertConversation db1 "sc-1" dataUp = (Except.ok c2, db2) ∧
      c2 = c1 ∧ db2.conversations = db1.conversations ∧
      (db2.conversations.filter
        (fun c => c.sunshineConversationId == some "sc-1")).length = 1 :=
  upsertConversation_idempotent db0 "sc-1" dataUp rfl (by decide) (by decide) (by decide)
